import Mathlib

/-!
Verification development for the redis-backed weighted directed graph engine
(`internal/tools/graph`): the `Edges`/`EdgeValue` data model, the in-memory
storage policy, the JSON codec, the once-on-commit snapshot policy with its
WATCH/MULTI/EXEC conditional-write protocol, and the write-through policy.

Embedding conventions, checked against the Go source line by line:

* Go maps are embedded as association lists (`Gmap V`), with `mlookup`,
  `mput` (insert-or-overwrite) and `mdel`.  A Go map *variable* can also be
  `nil`, so map-typed struct fields are embedded as `Option (Gmap V)` with
  `none` standing for a nil map.  Writing to a nil map is a run-time panic in
  Go; operations that can hit it return `Except GoPanic _`.
* `Edges.InitIfEmpty` in the source has a VALUE receiver
  (`func (es Edges) InitIfEmpty()`): the allocations it performs happen on the
  method-local copy of the struct and are invisible to the caller.  Every call
  site of `InitIfEmpty` is therefore embedded as a no-op on the caller's
  value (the method body itself is embedded as `Edges.InitIfEmptyBody`).
* Machine floats appear only as edge weights.  `encoding/json` round-trips
  every finite `float64` exactly and fails with `UnsupportedValueError` on
  NaN/±Inf, so weights are embedded as `F64`: an exact value for the finite
  case plus the three non-finite markers.
* Redis is embedded as `RedisDB`: a map from key to hash (field → stored
  value) plus a per-key modification counter.  `WATCH` records the counter,
  and `EXEC` of a `MULTI` block applies the queued writes and bumps the
  counter iff the watched key's counter is unchanged; otherwise it discards
  the queue and returns a null reply — with *no* error at the client
  (redigo's `Do("EXEC")` returns `(nil, nil)` for a null array reply).
  Transport failures on a healthy connection are outside the model; a
  connection that is already broken is modelled by `Conn.errState`
  (what `c.Err()` reports).
* redigo returns bulk-string replies as `[]byte`, so the
  `e.(string)` type assertion in `LoadSubGraph` fails for every field that is
  present in the store; this is embedded faithfully.
* A slice passed to redigo's `Do` without being spread is written through
  `writeArg`'s default `fmt.Fprint` case as its Go `fmt` rendering.  This
  happens twice in the source: `removeVertices` does `c.Do("HDEL", params)`
  (modelled by `RArg.slice`), and `startCAS` does `c.Do("WATCH", watchKeys)`
  with the `[]string` unspread, so the server watches the literal key
  `"[graphs:contents:<g>]"` (`goFmtStrings`) — a key that no writer ever
  touches, so in practice the watch is never invalidated and `EXEC` always
  executes.
-/

/-- Association-list embedding of the contents of a (non-nil) Go map with
string keys. -/
abbrev Gmap (V : Type) : Type := List (String × V)

/-- Lookup in a `Gmap` (Go `m[k]`, first matching key). -/
def mlookup {V : Type} : Gmap V → String → Option V
  | [], _ => none
  | (k2, v) :: rest, k => if k2 = k then some v else mlookup rest k

/-- Insert-or-overwrite in a `Gmap` (Go `m[k] = v`). -/
def mput {V : Type} : Gmap V → String → V → Gmap V
  | [], k, v => [(k, v)]
  | (k2, v2) :: rest, k, v =>
    if k2 = k then (k, v) :: rest else (k2, v2) :: mput rest k v

/-- Key removal in a `Gmap` (Go `delete(m, k)`). -/
def mdel {V : Type} : Gmap V → String → Gmap V
  | [], _ => []
  | (k2, v2) :: rest, k =>
    if k2 = k then mdel rest k else (k2, v2) :: mdel rest k

/-- The run-time failures the engine can actually hit: writing into a nil
map. -/
inductive GoPanic : Type
  | nilMapWrite
deriving DecidableEq

/-- Enum `edgeType` from `graph.go` (`base`, `resource`, `patch`). -/
inductive edgeType : Type
  | base
  | resource
  | patch
deriving DecidableEq

/-- Embedding of Go `float64` edge weights: finite values are exact (Go's
`encoding/json` round-trips every finite `float64` exactly), and the three
non-finite values are kept as markers because `json.Marshal` rejects them. -/
inductive F64 : Type
  | finite (q : ℚ)
  | nan
  | inf
  | negInf
deriving DecidableEq

/-- `EdgeValue` from `graph.go`: weight `W` and kind `T`. -/
structure EdgeValue : Type where
  W : F64
  T : edgeType
deriving DecidableEq

/-- `InsertEdge` from `graph.go`. -/
structure InsertEdge : Type where
  Src : String
  Dst : String
  Val : EdgeValue
deriving DecidableEq

/-- `RemoveEdge` from `graph.go`. -/
structure RemoveEdge : Type where
  Src : String
  Dst : String
deriving DecidableEq

/-- `Edges` from `graph.go`: the per-vertex adjacency record.  Each field is
a Go map that may be nil (`none`). -/
structure Edges : Type where
  InEdges : Option (Gmap EdgeValue)
  OutEdges : Option (Gmap EdgeValue)
deriving DecidableEq

/-- Body of `func (es Edges) InitIfEmpty()`: allocate either map if it is
nil.  The receiver is a VALUE, so this result is computed on the method's
local copy and discarded at every call site in the source; callers are
embedded with the receiver unchanged. -/
def Edges.InitIfEmptyBody (es : Edges) : Edges :=
  { InEdges := some (es.InEdges.getD []), OutEdges := some (es.OutEdges.getD []) }

/-- Go `m[k] = v` on a possibly-nil map: panics when the map is nil. -/
def goMapSet {V : Type} (m : Option (Gmap V)) (k : String) (v : V) :
    Except GoPanic (Gmap V) :=
  match m with
  | none => .error .nilMapWrite
  | some mm => .ok (mput mm k v)

/-- Go `delete(m, k)` on a possibly-nil map: deleting from a nil map is a
no-op. -/
def goMapDel {V : Type} (m : Option (Gmap V)) (k : String) : Option (Gmap V) :=
  match m with
  | none => none
  | some mm => some (mdel mm k)

/-- The `for k, v := range src { dst[k] = v }` loops inside `Edges.Copy`,
writing into `dst` which may be nil. -/
def writeAll (dst : Option (Gmap EdgeValue)) :
    Gmap EdgeValue → Except GoPanic (Option (Gmap EdgeValue))
  | [] => .ok dst
  | (k, v) :: rest =>
    match goMapSet dst k v with
    | .error p => .error p
    | .ok d => writeAll (some d) rest

/-- `func (es Edges) Copy() Edges` from `graph.go`.  `cpy := Edges{}` holds
two nil maps and `cpy.InitIfEmpty()` has a value receiver (no effect on
`cpy`), so the copy loops write into nil maps and panic as soon as either
source map has an entry; the `if es.InEdges != nil` guards make a nil source
map behave like an empty one. -/
def Edges.Copy (es : Edges) : Except GoPanic Edges :=
  match writeAll none (es.InEdges.getD []) with
  | .error p => .error p
  | .ok cin =>
    match writeAll none (es.OutEdges.getD []) with
    | .error p => .error p
    | .ok cout => .ok ⟨cin, cout⟩

/-- `inMemoryPolicy` from `in_memory.go`: a local map from vertex id to
`Edges` plus the graph name. -/
structure inMemoryPolicy : Type where
  m : Gmap Edges
  graph : String
deriving DecidableEq

/-- `NewInMemoryPolicy` from `in_memory.go`. -/
def NewInMemoryPolicy (graph : String) : inMemoryPolicy :=
  { m := [], graph := graph }

/-- `inMemoryPolicy.Name`. -/
def inMemoryPolicy.Name (p : inMemoryPolicy) : String := p.graph

/-- `inMemoryPolicy.Vertices`: lists the keys of `p.m`; the error is always
nil.  Go map iteration order is unspecified; the embedding fixes the list
order, which no claim observes. -/
def inMemoryPolicy.Vertices (p : inMemoryPolicy) : List String :=
  p.m.map Prod.fst

/-- `inMemoryPolicy.Edges` (named `EdgesOf` here because the adjacency type
is already called `Edges`): reads the record (zero value when absent) and
returns `edges.Copy()` together with the `ok` flag; the Go error is always
nil but `Copy` can panic. -/
def inMemoryPolicy.EdgesOf (p : inMemoryPolicy) (vertex : String) :
    Except GoPanic (Edges × Bool) :=
  match ((mlookup p.m vertex).getD ⟨none, none⟩).Copy with
  | .error pn => .error pn
  | .ok c => .ok (c, (mlookup p.m vertex).isSome)

/-- One iteration of the loop in `inMemoryPolicy.InsertEdges`: read `dst`
(zero value when absent), call `dst.InitIfEmpty()` (value receiver — no
effect), write `dst.InEdges[edge.Src] = edge.Val` (panics when the map is
nil), store `dst` back, and then the same on the `src` side.  The in-place
map write and the store-back `p.m[edge.Dst] = dst` coincide under value
semantics; the two adjacency maps of one record are distinct objects and
records of distinct vertices never share maps in this code base. -/
def insertEdgeStep (m : Gmap Edges) (e : InsertEdge) :
    Except GoPanic (Gmap Edges) :=
  let dst := (mlookup m e.Dst).getD ⟨none, none⟩
  match goMapSet dst.InEdges e.Src e.Val with
  | .error p => .error p
  | .ok dIn =>
    let m1 := mput m e.Dst { dst with InEdges := some dIn }
    let src := (mlookup m1 e.Src).getD ⟨none, none⟩
    match goMapSet src.OutEdges e.Dst e.Val with
    | .error p => .error p
    | .ok sOut => .ok (mput m1 e.Src { src with OutEdges := some sOut })

/-- The `for _, edge := range edges` loop of `inMemoryPolicy.InsertEdges`. -/
def insertEdgesGo (m : Gmap Edges) : List InsertEdge → Except GoPanic (Gmap Edges)
  | [] => .ok m
  | e :: rest =>
    match insertEdgeStep m e with
    | .error p => .error p
    | .ok m2 => insertEdgesGo m2 rest

/-- `inMemoryPolicy.InsertEdges` from `in_memory.go`: the returned Go error
is always nil, but the nil-map writes can panic. -/
def inMemoryPolicy.InsertEdges (p : inMemoryPolicy) (edges : List InsertEdge) :
    Except GoPanic inMemoryPolicy :=
  match insertEdgesGo p.m edges with
  | .error pn => .error pn
  | .ok m2 => .ok { p with m := m2 }

/-- One iteration of the loop in `inMemoryPolicy.RemoveEdges`: the struct is
read by value but its maps alias the stored entry, so `delete` is visible in
`p.m` without a write-back; a missing vertex yields the zero value whose nil
maps make `delete` a no-op. -/
def removeEdgeStep (m : Gmap Edges) (e : RemoveEdge) : Gmap Edges :=
  let m1 :=
    match mlookup m e.Dst with
    | none => m
    | some dst => mput m e.Dst { dst with InEdges := goMapDel dst.InEdges e.Src }
  match mlookup m1 e.Src with
  | none => m1
  | some src => mput m1 e.Src { src with OutEdges := goMapDel src.OutEdges e.Dst }

/-- `inMemoryPolicy.RemoveEdges` from `in_memory.go`; never fails. -/
def inMemoryPolicy.RemoveEdges (p : inMemoryPolicy) (edges : List RemoveEdge) :
    inMemoryPolicy :=
  { p with m := edges.foldl removeEdgeStep p.m }

/-- The `for _, v := range vertices` loop of `inMemoryPolicy.InsertVertices`:
read the record (zero value when absent), `edges.InitIfEmpty()` (value
receiver — no effect), store it back.  A fresh vertex is therefore stored
with both maps nil. -/
def insertVerticesGo (m : Gmap Edges) : List String → Gmap Edges
  | [] => m
  | v :: rest => insertVerticesGo (mput m v ((mlookup m v).getD ⟨none, none⟩)) rest

/-- `inMemoryPolicy.InsertVertices` from `in_memory.go`; never fails. -/
def inMemoryPolicy.InsertVertices (p : inMemoryPolicy) (vertices : List String) :
    inMemoryPolicy :=
  { p with m := insertVerticesGo p.m vertices }

/-- `inMemoryPolicy.RemoveVertices` from `in_memory.go`: `delete(p.m, v)`
for each id; never fails. -/
def inMemoryPolicy.RemoveVertices (p : inMemoryPolicy) (vertices : List String) :
    inMemoryPolicy :=
  { p with m := vertices.foldl (fun acc v => mdel acc v) p.m }

/-- `inMemoryPolicy.Commit` from `in_memory.go`: returns nil. -/
def inMemoryPolicy.Commit (_p : inMemoryPolicy) : Option String := none

/-- The constant `graphsContents` from `redis_write_through.go`, and
`contents(name)`: the storage key of a graph. -/
def graphsContents : String := "graphs:contents:"

/-- `contents(name)` from `redis_write_through.go`. -/
def contents (name : String) : String := graphsContents ++ name

/-- A value stored in a graph's hash field: either a well-formed serialized
`Edges` record (JSON object with each of `inEdges` / `outEdges` present or
omitted, abstracted by parse result), or bytes that do not parse as one. -/
inductive StoredVal : Type
  | record (es : Edges)
  | malformed (raw : String)
deriving DecidableEq

/-- The `omitempty` JSON tag on both maps of `Edges`: a field is omitted
from the serialized record iff the map is nil or empty. -/
def omitIfEmpty (m : Option (Gmap EdgeValue)) : Option (Gmap EdgeValue) :=
  match m with
  | none => none
  | some [] => none
  | some mm => some mm

/-- Whether `encoding/json` can marshal this edge value: it rejects NaN and
±Inf floats with `UnsupportedValueError`. -/
def serializableVal (v : EdgeValue) : Bool :=
  match v.W with
  | .finite _ => true
  | _ => false

/-- Whether every value of a (possibly nil) adjacency map marshals. -/
def serializableMap (m : Option (Gmap EdgeValue)) : Bool :=
  (m.getD []).all (fun kv => serializableVal kv.2)

/-- `MarshalEdges` from `redis_write_through.go`: `json.Marshal(edges)`.
Finite weights round-trip exactly; `omitempty` drops nil/empty maps; a
non-finite weight anywhere makes the whole marshal fail. -/
def MarshalEdges (es : Edges) : Except String StoredVal :=
  match serializableMap es.InEdges && serializableMap es.OutEdges with
  | true => .ok (.record ⟨omitIfEmpty es.InEdges, omitIfEmpty es.OutEdges⟩)
  | false => .error "json: unsupported value"

/-- `UnmarshalEdges` from `redis_write_through.go`: `var es Edges` holds two
nil maps, `es.InitIfEmpty()` has a value receiver and changes nothing, and
`json.Unmarshal` then allocates exactly the maps whose keys are present in
the record, leaving omitted ones nil; malformed bytes yield a parse error. -/
def UnmarshalEdges (s : StoredVal) : Except String Edges :=
  match s with
  | .record es => .ok es
  | .malformed raw => .error ("invalid character in " ++ raw)

/-- The remote store: per-key hash contents plus a per-key modification
counter driving the WATCH/MULTI/EXEC conditional-write protocol. -/
structure RedisDB : Type where
  hashes : Gmap (Gmap StoredVal)
  vers : Gmap Nat
deriving DecidableEq

/-- The fields of the hash at `key` (empty when the key is absent). -/
def hashOf (db : RedisDB) (key : String) : Gmap StoredVal :=
  (mlookup db.hashes key).getD []

/-- The modification counter of `key`. -/
def verOf (db : RedisDB) (key : String) : Nat :=
  (mlookup db.vers key).getD 0

/-- Server-side effect of one `HMSET key f1 v1 f2 v2 ...`: upsert each pair
in order. -/
def hmsetApply (h : Gmap StoredVal) : Gmap StoredVal → Gmap StoredVal
  | [] => h
  | (k, v) :: rest => hmsetApply (mput h k v) rest

/-- Applying a committed `HMSET` to the store: update the hash and bump the
key's modification counter (any write invalidates watchers of the key). -/
def applyHMSET (db : RedisDB) (key : String) (pairs : Gmap StoredVal) : RedisDB :=
  { hashes := mput db.hashes key (hmsetApply (hashOf db key) pairs),
    vers := mput db.vers key (verOf db key + 1) }

/-- A redigo connection as the engine observes it: `errState` is what
`c.Err()` reports (a connection already invalid at hand-off). -/
structure Conn : Type where
  errState : Option String
deriving DecidableEq

/-- `onceOnCommitPolicy` from the snapshot-policy source file: an embedded
`inMemoryPolicy`, the graph name, the owned connection (represented by its
WATCH registration: watched key and the key's modification counter at WATCH
time), and the dirty set. -/
structure onceOnCommitPolicy : Type where
  mem : inMemoryPolicy
  graph : String
  watched : Option (String × Nat)
  dirty : Gmap Unit
deriving DecidableEq

/-- The Go zero value `onceOnCommitPolicy{}` returned on some error paths. -/
def zeroOnceOnCommit : onceOnCommitPolicy :=
  { mem := { m := [], graph := "" }, graph := "", watched := none, dirty := [] }

/-- The field loop of `LoadGraph`: each `HGETALL` pair is unmarshalled;
the first malformed record aborts the whole load with an error naming the
vertex and graph, otherwise `mem.m[v] = edges`. -/
def LoadGraphGo (mem : inMemoryPolicy) : Gmap StoredVal → Except String inMemoryPolicy
  | [] => .ok mem
  | (v, sval) :: rest =>
    match UnmarshalEdges sval with
    | .error e =>
      .error ("error could not parse edges in vertex " ++ v ++ " from graph "
        ++ mem.graph ++ ": " ++ e)
    | .ok es => LoadGraphGo { mem with m := mput mem.m v es } rest

/-- `LoadGraph` from `redis_write_through.go`: `HGETALL contents(mem.Name())`
(`redis.Strings` converts the `[]byte` bulk replies), then unmarshal every
field. -/
def LoadGraph (db : RedisDB) (mem : inMemoryPolicy) : Except String inMemoryPolicy :=
  LoadGraphGo mem (hashOf db (contents mem.graph))

/-- The reply loop of `LoadSubGraph` over the `HMGET` results: a nil reply
(absent field) is skipped; a present field arrives from redigo as `[]byte`,
so the source's `e.(string)` type assertion fails and the function returns
the `unexpected value in graph` error. -/
def LoadSubGraphGo (h : Gmap StoredVal) (mem : inMemoryPolicy) :
    List String → Except String inMemoryPolicy
  | [] => .ok mem
  | k :: rest =>
    match mlookup h k with
    | none => LoadSubGraphGo h mem rest
    | some _ => .error "unexpected value in graph"

/-- `LoadSubGraph` from `redis_write_through.go`:
`HMGET contents(mem.Name()) keys...`. -/
def LoadSubGraph (db : RedisDB) (mem : inMemoryPolicy) (keys : List String) :
    Except String inMemoryPolicy :=
  LoadSubGraphGo (hashOf db (contents mem.graph)) mem keys

/-- Outcome of the snapshot constructors: the returned policy value, the
returned Go error, and whether `c.Close()` was called on the way out. -/
structure CtorResult : Type where
  policy : onceOnCommitPolicy
  err : Option String
  connClosed : Bool
deriving DecidableEq

/-- Go `fmt.Fprint` rendering of a `[]string`, which is what redigo's
`writeArg` default case sends for a slice argument that was not spread:
`["k1 k2 ..."]` becomes the single string `"[k1 k2 ...]"`. -/
def goFmtStrings (keys : List String) : String :=
  "[" ++ String.intercalate " " keys ++ "]"

/-- The key actually watched by `graphCAS(c, graph)`: `graphCAS` calls
`startCAS(c, contents(graph))`, and `startCAS` does
`c.Do("WATCH", watchKeys)` with the `[]string` UNSPREAD (no `watchKeys...`),
so redigo sends the `fmt` rendering of the one-element slice —
`"[graphs:contents:<graph>]"` — as the key to watch.  No command in the
engine ever writes that bracket-named key. -/
def graphCASWatchKey (graph : String) : String :=
  goFmtStrings [contents graph]

/-- `newOnceOnCommitSubGraph` from the snapshot-policy source: check
`c.Err()` (close and fail when the connection is invalid), build the policy
value, register the watch (`graphCAS` → `startCAS` = `WATCH` on
`graphCASWatchKey graph`, recording that key's current modification
counter; it cannot fail on a healthy connection), return directly when
`vertices == nil`, else run `LoadSubGraph` and close the connection when it
fails. -/
def newOnceOnCommitSubGraph (graph : String) (c : Conn) (db : RedisDB)
    (vertices : Option (List String)) : CtorResult :=
  match c.errState with
  | some e =>
    { policy := zeroOnceOnCommit,
      err := some ("invalid connection (" ++ e ++ ")"), connClosed := true }
  | none =>
    let odp : onceOnCommitPolicy :=
      { mem := NewInMemoryPolicy graph, graph := graph,
        watched := some (graphCASWatchKey graph, verOf db (graphCASWatchKey graph)),
        dirty := [] }
    match vertices with
    | none => { policy := odp, err := none, connClosed := false }
    | some keys =>
      match LoadSubGraph db odp.mem keys with
      | .error e => { policy := odp, err := some e, connClosed := true }
      | .ok mem2 =>
        { policy := { odp with mem := mem2 }, err := none, connClosed := false }

/-- `NewOnceOnCommitPolicy` from the snapshot-policy source: delegate to
`newOnceOnCommitSubGraph(graph, c, nil)`, then `LoadGraph`; when the load
fails the source does `return odp, err` WITHOUT calling `c.Close()`, so the
connection stays open on that path — mirrored here. -/
def NewOnceOnCommitPolicy (graph : String) (c : Conn) (db : RedisDB) : CtorResult :=
  let r := newOnceOnCommitSubGraph graph c db none
  match r.err with
  | some _ => r
  | none =>
    match LoadGraph db r.policy.mem with
    | .error e => { policy := r.policy, err := some e, connClosed := r.connClosed }
    | .ok mem2 =>
      { policy := { r.policy with mem := mem2 }, err := none, connClosed := false }

/-- The dirty-marking loop of `onceOnCommitPolicy.InsertEdges` /
`RemoveEdges`: both endpoints of every edge enter the dirty set before the
in-memory delegate runs. -/
def markDirtyPairs (d : Gmap Unit) : List (String × String) → Gmap Unit
  | [] => d
  | (src, dst) :: rest => markDirtyPairs (mput (mput d src ()) dst ()) rest

/-- The dirty-marking loop of `onceOnCommitPolicy.InsertVertices` /
`RemoveVertices`. -/
def markDirtyVertices (d : Gmap Unit) : List String → Gmap Unit
  | [] => d
  | v :: rest => markDirtyVertices (mput d v ()) rest

/-- `onceOnCommitPolicy.InsertEdges`: mark both endpoints dirty, then
delegate to the embedded in-memory policy (which can panic). -/
def onceOnCommitPolicy.InsertEdges (odp : onceOnCommitPolicy)
    (edges : List InsertEdge) : Except GoPanic onceOnCommitPolicy :=
  let d := markDirtyPairs odp.dirty (edges.map (fun e => (e.Src, e.Dst)))
  match inMemoryPolicy.InsertEdges odp.mem edges with
  | .error p => .error p
  | .ok mem2 => .ok { odp with dirty := d, mem := mem2 }

/-- `onceOnCommitPolicy.RemoveEdges`: mark both endpoints dirty, then
delegate. -/
def onceOnCommitPolicy.RemoveEdges (odp : onceOnCommitPolicy)
    (edges : List RemoveEdge) : onceOnCommitPolicy :=
  { odp with dirty := markDirtyPairs odp.dirty (edges.map (fun e => (e.Src, e.Dst))),
             mem := inMemoryPolicy.RemoveEdges odp.mem edges }

/-- `onceOnCommitPolicy.InsertVertices`: mark dirty, then delegate. -/
def onceOnCommitPolicy.InsertVertices (odp : onceOnCommitPolicy)
    (vertices : List String) : onceOnCommitPolicy :=
  { odp with dirty := markDirtyVertices odp.dirty vertices,
             mem := inMemoryPolicy.InsertVertices odp.mem vertices }

/-- `onceOnCommitPolicy.RemoveVertices`: mark dirty, then delegate (the id
stays in the dirty set with no in-memory record). -/
def onceOnCommitPolicy.RemoveVertices (odp : onceOnCommitPolicy)
    (vertices : List String) : onceOnCommitPolicy :=
  { odp with dirty := markDirtyVertices odp.dirty vertices,
             mem := inMemoryPolicy.RemoveVertices odp.mem vertices }

/-- The `for v := range odp.dirty { temp.m[v] = odp.inMemoryPolicy.m[v].Copy() }`
loop of `onceOnCommitPolicy.Commit`: look up each dirty vertex (zero value
when absent — e.g. after `RemoveVertices`) and copy it into `temp`.
`Edges.Copy` panics whenever the record has any edge. -/
def buildTemp (m : Gmap Edges) : Gmap Unit → Gmap Edges → Except GoPanic (Gmap Edges)
  | [], temp => .ok temp
  | (v, _) :: rest, temp =>
    match ((mlookup m v).getD ⟨none, none⟩).Copy with
    | .error p => .error p
    | .ok c => buildTemp m rest (mput temp v c)

/-- The pair-building loop of `StoreGraph`: marshal every record of the
changeset; the first marshal failure aborts with the
`Could not marshal values commit aborted` error. -/
def marshalPairs : Gmap Edges → Except String (Gmap StoredVal)
  | [] => .ok []
  | (v, es) :: rest =>
    match MarshalEdges es with
    | .error e => .error ("Could not marshal values commit aborted: " ++ e)
    | .ok d =>
      match marshalPairs rest with
      | .error e => .error e
      | .ok tail => .ok ((v, d) :: tail)

/-- `StoreGraph` from `redis_write_through.go` as seen from inside a `MULTI`
block: returns `none` (no command at all) on an empty changeset, the queued
`HMSET` field/value pairs otherwise, or the marshal error.  The `HMSET`
itself is only queued here; it takes effect at `EXEC`. -/
def StoreGraphQueue (temp : Gmap Edges) : Except String (Option (Gmap StoredVal)) :=
  match temp with
  | [] => .ok none
  | _ =>
    match marshalPairs temp with
    | .error e => .error e
    | .ok ps => .ok (some ps)

/-- Whether the `WATCH` registered at snapshot-open time is still valid
against `db` (the watched key's modification counter is unchanged). -/
def watchOK (odp : onceOnCommitPolicy) (db : RedisDB) : Bool :=
  match odp.watched with
  | none => true
  | some (k, ver) => verOf db k == ver

/-- Outcome of `onceOnCommitPolicy.Commit`: the store afterwards, the Go
return value (`.error` = run-time panic, `.ok e` = returned error value),
and whether the deferred `c.Close()` ran (it always does, panic included). -/
structure CommitResult : Type where
  db : RedisDB
  outcome : Except GoPanic (Option String)
  connClosed : Bool

/-- `onceOnCommitPolicy.Commit` from the snapshot-policy source, line by
line: `defer c.Close()`; `checkCAS` opens the `MULTI` block (it cannot fail
on a healthy connection); `temp` collects copies of the dirty vertices
(`buildTemp`; a panic there aborts Commit, the deferred Close discards the
open `MULTI`, and nothing is written); `StoreGraph` queues the `HMSET` — and
its error, if any, is DISCARDED by the source (`fmt.Errorf(...)` with the
result unused, no `return`), mirrored here by dropping it; `setCAS` runs
`EXEC`, which applies the queue and bumps the key's counter when the watch
is still valid, and otherwise discards the queue and returns a null reply
that redigo surfaces as `(nil, nil)` — no error — so Commit returns nil in
both cases. -/
def onceOnCommitPolicy.Commit (odp : onceOnCommitPolicy) (db : RedisDB) :
    CommitResult :=
  match buildTemp odp.mem.m odp.dirty [] with
  | .error p => { db := db, outcome := .error p, connClosed := true }
  | .ok temp =>
    let queued : Option (Gmap StoredVal) :=
      match StoreGraphQueue temp with
      | .error _ => none
      | .ok q => q
    if watchOK odp db then
      match queued with
      | none => { db := db, outcome := .ok none, connClosed := true }
      | some ps =>
        { db := applyHMSET db (contents odp.graph) ps,
          outcome := .ok none, connClosed := true }
    else
      { db := db, outcome := .ok none, connClosed := true }

/-- An argument of a redigo `Do` call: a string, or a whole `[]interface{}`
slice passed unspread as a single argument. -/
inductive RArg : Type
  | str (s : String)
  | slice (args : List RArg)

/-- A command sent to the store. -/
structure RedisCmd : Type where
  name : String
  args : List RArg

/-- `redisStringInput` from `redis_write_through.go`: prepends
`contents(graph)` to the keys. -/
def redisStringInput (graph : String) (keys : List String) : List RArg :=
  RArg.str (contents graph) :: keys.map RArg.str

/-- The `HDEL` issued by `removeVertices` in `redis_write_through.go`.  The
source builds `params := redisStringInput(contents(graph), toDelete)` —
applying the `graphs:contents:` prefix a second time, since
`redisStringInput` already prepends it — and then calls
`c.Do("HDEL", params)`, passing the whole slice as ONE argument instead of
spreading it with `params...`. -/
def removeVerticesCmd (graph : String) (toDelete : List String) : RedisCmd :=
  { name := "HDEL",
    args := [RArg.slice (redisStringInput (contents graph) toDelete)] }

/-- The bulk delete issued by `writeThroughPolicy.RemoveVertices`: it calls
`removeVertices(c, wtp.graph, toRemove)`. -/
def writeThroughRemoveVerticesCmd (wtpGraph : String) (toRemove : List String) :
    RedisCmd :=
  removeVerticesCmd wtpGraph toRemove

/-- Outcome of one write-through call: the store afterwards and the Go
return value. -/
structure WtResult : Type where
  db : RedisDB
  outcome : Except GoPanic (Option String)

/-- `writeThroughPolicy.InsertVertices` from `redis_write_through.go`: open
a sub-graph snapshot scoped to `toInsert` on a pooled connection; when the
construction fails the source does `return nil` — the error is DISCARDED —
mirrored here; otherwise insert the vertices and return `g.Commit()`. -/
def writeThroughInsertVertices (graph : String) (c : Conn) (db : RedisDB)
    (toInsert : List String) : WtResult :=
  let r := newOnceOnCommitSubGraph graph c db (some toInsert)
  match r.err with
  | some _ => { db := db, outcome := .ok none }
  | none =>
    let g := onceOnCommitPolicy.InsertVertices r.policy toInsert
    let cr := onceOnCommitPolicy.Commit g db
    { db := cr.db, outcome := cr.outcome }

/-- The spec's normalization on `Edges`: an empty map is identified with an
absent (nil) one, here by sending both to absent. -/
def normalizeEdges (es : Edges) : Edges :=
  { InEdges := omitIfEmpty es.InEdges, OutEdges := omitIfEmpty es.OutEdges }

/-- Equality of `Edges` up to the empty-vs-absent identification: both sides
hold the same entries once a nil map is read as an empty one. -/
def EdgesEquivAbsent (a b : Edges) : Prop :=
  a.InEdges.getD [] = b.InEdges.getD [] ∧ a.OutEdges.getD [] = b.OutEdges.getD []

/-- An empty store. -/
def emptyDB : RedisDB := { hashes := [], vers := [] }

/-- A healthy connection. -/
def okConn : Conn := { errState := none }

/-- A connection that is already invalid when the policy receives it. -/
def badConn : Conn := { errState := some "use of closed network connection" }

/-- A store whose graph `g` holds one malformed record for vertex `v`. -/
def dbMalformed : RedisDB :=
  { hashes := [("graphs:contents:g", [("v", StoredVal.malformed "oops")])],
    vers := [] }

/-- Conflict scenario, step 0: a full-graph snapshot of the empty graph `g`. -/
def snapC1 : onceOnCommitPolicy :=
  (NewOnceOnCommitPolicy "g" okConn emptyDB).policy

/-- Conflict scenario: the first snapshot buffers vertex `a`. -/
def snap1C1 : onceOnCommitPolicy :=
  onceOnCommitPolicy.InsertVertices snapC1 ["a"]

/-- Conflict scenario: the first snapshot commits. -/
def commit1C1 : CommitResult := onceOnCommitPolicy.Commit snap1C1 emptyDB

/-- Conflict scenario: the second snapshot (opened against the same graph
before the first commit) buffers vertex `b`. -/
def snap2C1 : onceOnCommitPolicy :=
  onceOnCommitPolicy.InsertVertices snapC1 ["b"]

/-- Conflict scenario: the second snapshot commits against the store the
first commit produced. -/
def commit2C1 : CommitResult := onceOnCommitPolicy.Commit snap2C1 commit1C1.db

/-- An edge value `encoding/json` cannot marshal. -/
def nanEdgeValue : EdgeValue := { W := F64.nan, T := edgeType.resource }

/-- A snapshot whose single dirty vertex `a` carries an out-edge whose
weight is NaN, the record that would make serialization fail on commit. -/
def snapC4 : onceOnCommitPolicy :=
  { mem := { m := [("a", ⟨some [], some [("b", nanEdgeValue)]⟩)], graph := "g" },
    graph := "g", watched := some (graphCASWatchKey "g", 0), dirty := [("a", ())] }

/-- Witness snapshot for the frame property: dirty set `{a}` only. -/
def odpW3 : onceOnCommitPolicy :=
  { mem := { m := [("a", ⟨none, none⟩)], graph := "g" },
    graph := "g", watched := some (graphCASWatchKey "g", 0), dirty := [("a", ())] }

/-- Witness store for the frame property: vertex `b` already stored. -/
def dbW3 : RedisDB :=
  { hashes := [("graphs:contents:g", [("b", StoredVal.record ⟨none, none⟩)])],
    vers := [] }

/-- Witness `Edges` value for the round trip: one empty map, one entry. -/
def esW5 : Edges :=
  ⟨some [], some [("b", { W := F64.finite 1, T := edgeType.base })]⟩

/-- Serialized form of `esW5`: the empty map is omitted. -/
def svW5 : StoredVal :=
  .record ⟨none, some [("b", { W := F64.finite 1, T := edgeType.base })]⟩

/-- Witness snapshot for the remove-then-commit behaviour: vertex `v`
present in the snapshot, nothing dirty yet. -/
def odpW10 : onceOnCommitPolicy :=
  { mem := { m := [("v", ⟨none, none⟩)], graph := "g" },
    graph := "g", watched := some (graphCASWatchKey "g", 0), dirty := [] }

/-- Witness store for the remove-then-commit behaviour: `v` stored. -/
def dbW10 : RedisDB :=
  { hashes := [("graphs:contents:g", [("v", StoredVal.record ⟨none, none⟩)])],
    vers := [] }

/-- Looking up the key just written by `mput` yields the new value. -/
theorem mlookup_mput_self {V : Type} (m : Gmap V) (k : String) (v : V) :
    mlookup (mput m k v) k = some v := by
  induction m with
  | nil => simp [mput, mlookup]
  | cons hd tl ih =>
    obtain ⟨k2, v2⟩ := hd
    by_cases h : k2 = k
    · simp [mput, h, mlookup]
    · simp [mput, h, mlookup, ih]

/-- `mput` leaves lookups of other keys unchanged. -/
theorem mlookup_mput_ne {V : Type} (m : Gmap V) (k : String) (v : V)
    (k2 : String) (h : ¬ k = k2) : mlookup (mput m k v) k2 = mlookup m k2 := by
  induction m with
  | nil => simp [mput, mlookup, h]
  | cons hd tl ih =>
    obtain ⟨k3, v3⟩ := hd
    by_cases h3 : k3 = k
    · simp [mput, h3, mlookup, h]
    · simp [mput, h3, mlookup, ih]

/-- Every entry of `mput m k v` is the new pair or an old entry. -/
theorem mem_mput {V : Type} (m : Gmap V) (k : String) (v : V)
    (kv : String × V) (h : kv ∈ mput m k v) : kv = (k, v) ∨ kv ∈ m := by
  induction m with
  | nil => simp [mput] at h; simp [h]
  | cons hd tl ih =>
    obtain ⟨k2, v2⟩ := hd
    by_cases h2 : k2 = k
    · simp [mput, h2] at h
      rcases h with h | h
      · exact Or.inl (by simp [h])
      · exact Or.inr (by simp [h])
    · simp [mput, h2] at h
      rcases h with h | h
      · exact Or.inr (by simp [h])
      · rcases ih h with h3 | h3
        · exact Or.inl h3
        · exact Or.inr (by simp [h3])

/-- Lookup commutes with a value-only map over the entries. -/
theorem mlookup_map {V W : Type} (f : V → W) (m : Gmap V) (k : String) :
    mlookup (m.map (fun kv => (kv.1, f kv.2))) k = (mlookup m k).map f := by
  induction m with
  | nil => simp [mlookup]
  | cons hd tl ih =>
    obtain ⟨k2, v2⟩ := hd
    by_cases h : k2 = k
    · simp [mlookup, h]
    · simp [mlookup, h, ih]

/-- When `Edges.Copy` does not panic, its result holds two nil maps: the
value-receiver `InitIfEmpty` never allocated the copy's maps, and a panic is
avoided only when there was nothing to copy. -/
theorem copy_ok (es : Edges) (c : Edges) (h : es.Copy = .ok c) :
    c = ⟨none, none⟩ := by
  unfold Edges.Copy at h
  cases hin : es.InEdges.getD [] with
  | cons hd tl =>
    rw [hin] at h
    obtain ⟨k, v⟩ := hd
    simp [writeAll, goMapSet] at h
  | nil =>
    rw [hin] at h
    cases hout : es.OutEdges.getD [] with
    | cons hd tl =>
      rw [hout] at h
      obtain ⟨k, v⟩ := hd
      simp [writeAll, goMapSet] at h
    | nil =>
      rw [hout] at h
      simp [writeAll] at h
      exact h.symm

/-- `buildTemp` never touches vertices outside the dirty set. -/
theorem buildTemp_frame (m : Gmap Edges) (w : String) :
    ∀ (d : Gmap Unit) (temp0 t : Gmap Edges),
      buildTemp m d temp0 = .ok t → mlookup d w = none →
      mlookup t w = mlookup temp0 w := by
  intro d
  induction d with
  | nil =>
    intro temp0 t h _
    unfold buildTemp at h
    injection h with h
    rw [h]
  | cons hd rest ih =>
    intro temp0 t h hd2
    obtain ⟨v, u⟩ := hd
    unfold buildTemp at h
    cases hc : ((mlookup m v).getD ⟨none, none⟩).Copy with
    | error p => rw [hc] at h; cases h
    | ok c =>
      rw [hc] at h
      have hvw : ¬ v = w := by
        intro hvw
        rw [mlookup] at hd2
        simp [hvw] at hd2
      have hrest : mlookup rest w = none := by
        rw [mlookup] at hd2
        simp [hvw] at hd2
        exact hd2
      rw [ih _ _ h hrest, mlookup_mput_ne _ _ _ _ hvw]

/-- Every dirty vertex ends up in `temp`, always with the empty record that
`Edges.Copy` produces when it does not panic. -/
theorem buildTemp_dirty_lookup (m : Gmap Edges) (w : String) :
    ∀ (d : Gmap Unit) (temp0 t : Gmap Edges),
      buildTemp m d temp0 = .ok t → (mlookup d w).isSome →
      mlookup t w = some ⟨none, none⟩ := by
  intro d
  induction d with
  | nil =>
    intro temp0 t _ hs
    simp [mlookup] at hs
  | cons hd rest ih =>
    intro temp0 t h hs
    obtain ⟨v, u⟩ := hd
    unfold buildTemp at h
    cases hc : ((mlookup m v).getD ⟨none, none⟩).Copy with
    | error p => rw [hc] at h; cases h
    | ok c =>
      rw [hc] at h
      by_cases hrest : (mlookup rest w).isSome
      · exact ih _ _ h hrest
      · have hrn : mlookup rest w = none := by
          cases hr : mlookup rest w
          · rfl
          · rw [hr] at hrest; simp at hrest
        have hvw : v = w := by
          by_contra hvw
          rw [mlookup] at hs
          simp [hvw, hrn] at hs
        rw [buildTemp_frame m w rest _ t h hrn, copy_ok _ _ hc, hvw,
          mlookup_mput_self]

/-- Every record placed into `temp` by a non-panicking `buildTemp` is the
empty one. -/
theorem buildTemp_values (m : Gmap Edges) :
    ∀ (d : Gmap Unit) (temp0 t : Gmap Edges),
      buildTemp m d temp0 = .ok t →
      (∀ kv ∈ temp0, kv.2 = Edges.mk none none) →
      ∀ kv ∈ t, kv.2 = Edges.mk none none := by
  intro d
  induction d with
  | nil =>
    intro temp0 t h h0
    unfold buildTemp at h
    injection h with h
    rw [← h]
    exact h0
  | cons hd rest ih =>
    intro temp0 t h h0
    obtain ⟨v, u⟩ := hd
    unfold buildTemp at h
    cases hc : ((mlookup m v).getD ⟨none, none⟩).Copy with
    | error p => rw [hc] at h; cases h
    | ok c =>
      rw [hc] at h
      refine ih _ _ h ?_
      intro kv hkv
      rcases mem_mput _ _ _ _ hkv with h1 | h1
      · rw [h1]; exact copy_ok _ _ hc
      · exact h0 kv h1

/-- `marshalPairs` on a changeset of empty records always succeeds and
serializes each to the empty stored record. -/
theorem marshalPairs_all_empty :
    ∀ (t : Gmap Edges), (∀ kv ∈ t, kv.2 = Edges.mk none none) →
      marshalPairs t
        = .ok (t.map (fun kv => (kv.1, StoredVal.record ⟨none, none⟩))) := by
  intro t
  induction t with
  | nil => intro _; rfl
  | cons hd tl ih =>
    intro h
    obtain ⟨v, es⟩ := hd
    have hes : es = Edges.mk none none := h (v, es) (List.mem_cons_self _ _)
    have htl : ∀ kv ∈ tl, kv.2 = Edges.mk none none :=
      fun kv hkv => h kv (List.mem_cons_of_mem _ hkv)
    subst hes
    simp [marshalPairs, MarshalEdges, serializableMap, omitIfEmpty, ih htl]

/-- An `HMSET` leaves fields it does not name unchanged. -/
theorem hmsetApply_frame (w : String) :
    ∀ (ps h : Gmap StoredVal), mlookup ps w = none →
      mlookup (hmsetApply h ps) w = mlookup h w := by
  intro ps
  induction ps with
  | nil => intro h _; rfl
  | cons hd tl ih =>
    intro h hw
    obtain ⟨k, v⟩ := hd
    have hkw : ¬ k = w := by
      intro hkw
      rw [mlookup] at hw
      simp [hkw] at hw
    have htl : mlookup tl w = none := by
      rw [mlookup] at hw
      simp [hkw] at hw
      exact hw
    unfold hmsetApply
    rw [ih _ htl, mlookup_mput_ne _ _ _ _ hkw]

/-- An `HMSET` whose pairs all carry the same value `dval` sets every named
field to `dval`. -/
theorem hmsetApply_lookup_const (w : String) (dval : StoredVal) :
    ∀ (ps h : Gmap StoredVal),
      (∀ kv ∈ ps, kv.2 = dval) → (mlookup ps w).isSome →
      mlookup (hmsetApply h ps) w = some dval := by
  intro ps
  induction ps with
  | nil => intro h _ hs; simp [mlookup] at hs
  | cons hd tl ih =>
    intro h hall hs
    obtain ⟨k, v⟩ := hd
    by_cases hrest : (mlookup tl w).isSome
    · exact ih _ (fun kv hkv => hall kv (List.mem_cons_of_mem _ hkv)) hrest
    · have hrn : mlookup tl w = none := by
        cases hr : mlookup tl w
        · rfl
        · rw [hr] at hrest; simp at hrest
      have hkw : k = w := by
        by_contra hkw
        rw [mlookup] at hs
        simp [hkw, hrn] at hs
      have hv : v = dval := hall (k, v) (List.mem_cons_self _ _)
      unfold hmsetApply
      rw [hmsetApply_frame w tl _ hrn, hkw, hv, mlookup_mput_self]

/-- Reading a nil or empty map through `getD []` is unaffected by the
`omitempty` normalization. -/
theorem omitIfEmpty_getD (m : Option (Gmap EdgeValue)) :
    (omitIfEmpty m).getD [] = m.getD [] := by
  cases m with
  | none => rfl
  | some mm => cases mm <;> rfl

/-- C3: a once-on-commit Commit serializes and writes back only the
vertices recorded in the dirty set — for every store key and every vertex
not in the dirty set, the stored record of that vertex is unchanged by the
commit, on every execution path (panic, conflict, or success). -/
theorem commit_writes_only_dirty (odp : onceOnCommitPolicy) (db : RedisDB)
    (k w : String) (hw : mlookup odp.dirty w = none) :
    mlookup (hashOf (onceOnCommitPolicy.Commit odp db).db k) w
      = mlookup (hashOf db k) w := by
  unfold onceOnCommitPolicy.Commit
  cases hbt : buildTemp odp.mem.m odp.dirty [] with
  | error p => simp
  | ok temp =>
    have htw : mlookup temp w = none := by
      rw [buildTemp_frame odp.mem.m w odp.dirty [] temp hbt hw]
      rfl
    cases temp with
    | nil =>
      by_cases hok : watchOK odp db <;> simp [StoreGraphQueue, hok]
    | cons hd tl =>
      have hvals : ∀ kv ∈ (hd :: tl), kv.2 = Edges.mk none none :=
        buildTemp_values odp.mem.m odp.dirty [] _ hbt
          (by intro kv hkv; cases hkv)
      have hmp := marshalPairs_all_empty (hd :: tl) hvals
      have hml : mlookup
          ((hd :: tl).map (fun kv => (kv.1, StoredVal.record ⟨none, none⟩))) w
          = none := by
        rw [mlookup_map (fun _ => StoredVal.record ⟨none, none⟩) (hd :: tl) w, htw]
        rfl
      by_cases hok : watchOK odp db
      · simp only [StoreGraphQueue, hmp, hok, if_true]
        unfold hashOf applyHMSET
        by_cases hkk : contents odp.graph = k
        · simp only [hkk, mlookup_mput_self, Option.getD_some]
          rw [hmsetApply_frame w _ _ hml, ← hkk]
          rfl
        · rw [mlookup_mput_ne _ _ _ _ hkk]
      · simp [StoreGraphQueue, hmp, hok]

/-- C3 witness: a concrete snapshot with dirty set `{a}` leaves the stored
record of `b` unchanged. -/
theorem commit_writes_only_dirty_witness :
    mlookup odpW3.dirty "b" = none ∧
    mlookup (hashOf (onceOnCommitPolicy.Commit odpW3 dbW3).db "graphs:contents:g") "b"
      = mlookup (hashOf dbW3 "graphs:contents:g") "b" :=
  ⟨rfl, commit_writes_only_dirty odpW3 dbW3 "graphs:contents:g" "b" rfl⟩

/-- C10: after `RemoveVertices(v)`, a subsequent Commit that neither panics
nor hits a conflict does not delete `v`'s field from the store — `v` stays
in the dirty set with no in-memory record, so Commit upserts the empty
adjacency record for `v`. -/
theorem removed_vertex_upserted (odp : onceOnCommitPolicy) (db : RedisDB)
    (v : String)
    (hok : watchOK (onceOnCommitPolicy.RemoveVertices odp [v]) db = true)
    (hc : ((onceOnCommitPolicy.RemoveVertices odp [v]).Commit db).outcome
      = .ok none) :
    mlookup
      (hashOf ((onceOnCommitPolicy.RemoveVertices odp [v]).Commit db).db
        (contents odp.graph)) v
      = some (StoredVal.record ⟨none, none⟩) := by
  set odp2 := onceOnCommitPolicy.RemoveVertices odp [v] with hodp2
  have hgraph : odp2.graph = odp.graph := rfl
  have hdirty : (mlookup odp2.dirty v).isSome := by
    have : odp2.dirty = mput odp.dirty v () := rfl
    rw [this, mlookup_mput_self]
    rfl
  unfold onceOnCommitPolicy.Commit at hc ⊢
  cases hbt : buildTemp odp2.mem.m odp2.dirty [] with
  | error p => rw [hbt] at hc; simp at hc
  | ok temp =>
    have htv : mlookup temp v = some ⟨none, none⟩ :=
      buildTemp_dirty_lookup odp2.mem.m v odp2.dirty [] temp hbt hdirty
    cases temp with
    | nil => simp [mlookup] at htv
    | cons hd tl =>
      have hvals : ∀ kv ∈ (hd :: tl), kv.2 = Edges.mk none none :=
        buildTemp_values odp2.mem.m odp2.dirty [] _ hbt
          (by intro kv hkv; cases hkv)
      have hmp := marshalPairs_all_empty (hd :: tl) hvals
      have hmlv : (mlookup
          ((hd :: tl).map (fun kv => (kv.1, StoredVal.record ⟨none, none⟩)))
          v).isSome := by
        rw [mlookup_map (fun _ => StoredVal.record ⟨none, none⟩) (hd :: tl) v, htv]
        rfl
      have hallconst : ∀ kv ∈ (hd :: tl).map
          (fun kv => (kv.1, StoredVal.record (Edges.mk none none))),
          kv.2 = StoredVal.record (Edges.mk none none) := by
        intro kv hkv
        rcases List.mem_map.mp hkv with ⟨kv0, _, hkv0⟩
        rw [← hkv0]
      simp only [StoreGraphQueue, hmp, hok, if_true]
      unfold hashOf applyHMSET
      rw [← hgraph]
      simp only [mlookup_mput_self, Option.getD_some]
      exact hmsetApply_lookup_const v _ _ _ hallconst hmlv

/-- C10 witness: a concrete snapshot holding vertex `v` removes it, commits
without conflict, and the store afterwards maps `v` to the empty record. -/
theorem removed_vertex_upserted_witness :
    watchOK (onceOnCommitPolicy.RemoveVertices odpW10 ["v"]) dbW10 = true ∧
    ((onceOnCommitPolicy.RemoveVertices odpW10 ["v"]).Commit dbW10).outcome
      = .ok none ∧
    mlookup
      (hashOf ((onceOnCommitPolicy.RemoveVertices odpW10 ["v"]).Commit dbW10).db
        (contents odpW10.graph)) "v"
      = some (StoredVal.record ⟨none, none⟩) :=
  ⟨rfl, rfl, removed_vertex_upserted odpW10 dbW10 "v" rfl rfl⟩

/-- C5: serializing an `Edges` value with `MarshalEdges` and deserializing
with `UnmarshalEdges` yields the original up to identifying empty maps with
absent ones: the result is exactly the normalized original, and the
normalized original is equivalent to the original under that
identification. -/
theorem marshal_unmarshal_roundtrip (es : Edges) (sv : StoredVal)
    (h : MarshalEdges es = .ok sv) :
    UnmarshalEdges sv = .ok (normalizeEdges es) ∧
    EdgesEquivAbsent (normalizeEdges es) es := by
  unfold MarshalEdges at h
  cases hb : serializableMap es.InEdges && serializableMap es.OutEdges with
  | false => rw [hb] at h; cases h
  | true =>
    rw [hb] at h
    injection h with h
    rw [← h]
    constructor
    · rfl
    · exact ⟨omitIfEmpty_getD es.InEdges, omitIfEmpty_getD es.OutEdges⟩

/-- C5 witness: a concrete value with one empty and one inhabited map. -/
theorem marshal_unmarshal_roundtrip_witness :
    MarshalEdges esW5 = .ok svW5 ∧
    (UnmarshalEdges svW5 = .ok (normalizeEdges esW5) ∧
      EdgesEquivAbsent (normalizeEdges esW5) esW5) :=
  ⟨rfl, marshal_unmarshal_roundtrip esW5 svW5 rfl⟩

/-- C1: two once-on-commit snapshots of the same graph; the first commits
successfully and its write lands in the store, but the second snapshot's
Commit neither fails nor is discarded.  `startCAS` registers the `WATCH` on
the stringified unspread slice `"[graphs:contents:g]"` — a key no writer
touches — so the second `EXEC` is never invalidated and applies the
buffered write (vertex `b` appears in the store, which therefore differs
from its post-first-commit state); and even if the watch had fired,
`setCAS` only inspects the Go error of `Do("EXEC")`, which is nil for the
null abort reply, so Commit would still have returned nil. -/
theorem second_commit_conflict_silent :
    commit1C1.outcome = .ok none ∧
    hashOf commit1C1.db (contents "g") = [("a", StoredVal.record ⟨none, none⟩)] ∧
    commit2C1.outcome = .ok none ∧
    mlookup (hashOf commit2C1.db (contents "g")) "b"
      = some (StoredVal.record ⟨none, none⟩) ∧
    commit2C1.db ≠ commit1C1.db :=
  ⟨rfl, rfl, rfl, rfl, by decide⟩

/-- C2: inserting an edge through the in-memory policy's `InsertEdges` on a
fresh policy does not establish the symmetric adjacency — it panics with a
nil-map write, because the value-receiver `InitIfEmpty` never allocates the
stored maps. -/
theorem insertEdges_fresh_panics :
    inMemoryPolicy.InsertEdges (NewInMemoryPolicy "g")
      [{ Src := "a", Dst := "b",
         Val := { W := F64.finite 1, T := edgeType.base } }]
      = .error GoPanic.nilMapWrite :=
  rfl

/-- C4: Commit on a snapshot whose dirty vertex carries an unserializable
(NaN-weighted) edge does not return a serialization error: the dirty-copy
loop panics on the nil-map write before `StoreGraph` is ever reached (and
`Commit` discards `StoreGraph`'s error anyway — the `fmt.Errorf` result is
unused); no writes are applied. -/
theorem commit_nan_panics :
    (onceOnCommitPolicy.Commit snapC4 emptyDB).outcome
      = .error GoPanic.nilMapWrite ∧
    (onceOnCommitPolicy.Commit snapC4 emptyDB).db = emptyDB :=
  ⟨rfl, rfl⟩

/-- C6: a full-graph snapshot construction whose `LoadGraph` step fails (a
malformed stored record) returns the error but does NOT release the owned
connection — `NewOnceOnCommitPolicy` has no `c.Close()` on that path, unlike
every failure path of `newOnceOnCommitSubGraph`. -/
theorem fullgraph_load_failure_leaks_conn :
    (NewOnceOnCommitPolicy "g" okConn dbMalformed).err.isSome = true ∧
    (NewOnceOnCommitPolicy "g" okConn dbMalformed).connClosed = false :=
  ⟨rfl, rfl⟩

/-- C7: when sub-graph snapshot construction fails (invalid pooled
connection), `writeThroughPolicy.InsertVertices` swallows the error and
returns nil — the source's `return nil` where its siblings `return err`. -/
theorem insertVertices_swallows_ctor_error :
    (newOnceOnCommitSubGraph "g" badConn emptyDB (some ["a"])).err.isSome
      = true ∧
    (writeThroughInsertVertices "g" badConn emptyDB ["a"]).outcome = .ok none :=
  ⟨rfl, rfl⟩

/-- C8: a sequence of in-memory operations from a fresh policy that aborts:
`InsertVertices` stores records whose maps are still nil (value-receiver
`InitIfEmpty`), so the following `InsertEdges` panics writing into a nil
map. -/
theorem inmemory_sequence_panics :
    inMemoryPolicy.InsertEdges
      (inMemoryPolicy.InsertVertices (NewInMemoryPolicy "g") ["a", "b"])
      [{ Src := "a", Dst := "b",
         Val := { W := F64.finite 1, T := edgeType.base } }]
      = .error GoPanic.nilMapWrite :=
  rfl

/-- C9: the bulk delete issued by the write-through `RemoveVertices` is not
`HDEL graphs:contents:g v`: the namespace prefix is applied twice
(`redisStringInput(contents(graph), ...)` inside `removeVertices`) and the
whole params slice is passed to `Do` as a single argument instead of being
spread. -/
theorem removeVertices_cmd_malformed :
    writeThroughRemoveVerticesCmd "g" ["v"]
      = { name := "HDEL",
          args := [RArg.slice
            [RArg.str "graphs:contents:graphs:contents:g", RArg.str "v"]] } :=
  rfl
